import Mathlib

/-!
Verification development for the `@supercharge/promise-pool` bounded-concurrency
task executor (`src/promise-pool-executor.ts`, current `PromisePoolExecutor`
class, together with `src/promise-pool-error.ts` and the `PromisePool` builder).

The executor is embedded as an explicit state machine: the JavaScript event
loop interleaves the main scheduling loop (`process`) with the settlement
continuations of the launched task chains built in `startProcessing`, so the
embedding exposes that nondeterminism as an explicit `Choice` at each step.
User-supplied code (the item handler, the custom error handler, and the
`onTaskStarted` / `onTaskFinished` callbacks) is abstracted by a per-item
`TaskModel` describing how that code behaves: how the handler settles, whether
it beats a configured task timeout, whether it calls `pool.stop()`, and what
the error handler or callbacks do when invoked for this item.
-/

namespace PromisePoolModel

/-- A JavaScript value, restricted to the shapes `promise-pool-error.ts`
distinguishes: `null`, `undefined`, booleans, numbers, strings, `Error`
instances (carrying their `message`), and plain objects — either with a
`message` property holding some value, or without one. -/
inductive JsValue where
  | nullV
  | undefV
  | boolV (b : Bool)
  | numV (n : Int)
  | strV (s : String)
  | errV (message : String)
  | objV (message : JsValue)
  | objNoMsgV
  deriving Repr, DecidableEq

/-- The JavaScript `typeof` operator on the modelled values
(`typeof null` is `"object"`, and `Error` instances are objects). -/
def jsTypeof : JsValue → String
  | .nullV => "object"
  | .undefV => "undefined"
  | .boolV _ => "boolean"
  | .numV _ => "number"
  | .strV _ => "string"
  | .errV _ => "object"
  | .objV _ => "object"
  | .objNoMsgV => "object"

/-- A JavaScript exception thrown by the modelled library code itself
(as opposed to values thrown by user handlers). -/
inductive JsThrow where
  | typeError (msg : String)
  deriving Repr, DecidableEq

/-- `PromisePoolError.messageFrom` from `src/promise-pool-error.ts`:
`error instanceof Error` returns `error.message`; otherwise
`typeof error === 'object'` returns `error.message` — which throws a
`TypeError` when `error` is `null` (since `typeof null === 'object'`) and
yields `undefined` when a plain object has no `message` property; strings and
numbers are converted with `toString()`; every other value maps to `''`. -/
def messageFrom (error : JsValue) : Except JsThrow JsValue :=
  match error with
  | .errV m => .ok (.strV m)
  | .nullV => .error (.typeError "Cannot read properties of null")
  | .objV m => .ok m
  | .objNoMsgV => .ok .undefV
  | .strV s => .ok (.strV s)
  | .numV n => .ok (.strV (toString n))
  | _ => .ok (.strV "")

/-- The `PromisePoolError` wrapper from `src/promise-pool-error.ts`: it keeps
the original error in `raw`, the offending item in `item`, and sets `message`
to `messageFrom error`. -/
structure PromisePoolError (T : Type) where
  raw : JsValue
  item : T
  message : JsValue
  deriving Repr, DecidableEq

/-- `PromisePoolError.createFrom` / the `PromisePoolError` constructor: the
constructor body runs `this.messageFrom(error)`, so construction itself throws
whenever `messageFrom` throws (which happens for `error = null`). -/
def PromisePoolError.createFrom {T : Type} (error : JsValue) (item : T) :
    Except JsThrow (PromisePoolError T) :=
  match messageFrom error with
  | .error e => .error e
  | .ok msg => .ok { raw := error, item := item, message := msg }

/-- A value thrown inside a task chain, classified the way
`handleErrorFor` classifies it: a `StopThePromisePoolError`, a
`ValidationError` (with its message), or any other thrown value. -/
inductive ThrownError where
  | stopError
  | validationError (msg : String)
  | other (v : JsValue)
  deriving Repr, DecidableEq

/-- How a handler invocation settles: it fulfills with a value or rejects
with a thrown error. -/
inductive HandlerResult (R : Type) where
  | value (v : R)
  | throws (e : ThrownError)
  deriving Repr, DecidableEq

/-- Abstraction of all user-supplied code run for one source item: how the
handler promise settles, whether the handler calls `pool.stop()` during its
run, whether the handler settles before a configured task timeout fires, what
the custom error handler does when invoked for this item (`ehThrows = none`
means it returns normally), whether the error handler calls `pool.stop()`,
and whether an `onTaskStarted` / `onTaskFinished` callback calls
`pool.stop()` when run for this item. -/
structure TaskModel (T R : Type) where
  item : T
  handler : HandlerResult R
  handlerStops : Bool
  beatsTimer : Bool
  ehThrows : Option ThrownError
  ehStops : Bool
  startCbStops : Bool
  finishCbStops : Bool
  deriving Repr, DecidableEq

/-- The executor configuration reaching `process` after validation: the
concurrency limit, the corresponding-results flag, the optional task timeout
(milliseconds), whether a custom error handler is installed, whether the
source is an array (versus a lazy iterable), and the source items together
with the behaviour of the user code run for each. -/
structure Config (T R : Type) where
  concurrency : Nat
  shouldResultsCorrespond : Bool
  taskTimeout : Option Nat
  hasErrorHandler : Bool
  sourceIsArray : Bool
  items : List (TaskModel T R)
  deriving Repr

/-- One slot of the `results` array: the `PromisePool.notRun` symbol, the
`PromisePool.failed` symbol, a handler return value, or a JavaScript array
hole created by assigning past the current length. -/
inductive Cell (R : Type) where
  | notRun
  | failed
  | value (v : R)
  | hole
  deriving Repr, DecidableEq

/-- JavaScript array index assignment `a[i] = c`: writes in place when `i` is
within bounds and otherwise extends the array, creating holes for any skipped
indices. -/
def jsArraySet {R : Type} (a : List (Cell R)) (i : Nat) (c : Cell R) : List (Cell R) :=
  if i < a.length then a.set i c
  else a ++ List.replicate (i - a.length) Cell.hole ++ [c]

/-- The message of the error created by `createTaskTimeout` when the timer
fires. -/
def timeoutMessage (t : Nat) : String :=
  "Task in promise pool timed out after " ++ toString t ++ "ms"

/-- Lifecycle of the `setTimeout` timer created by `createTaskTimeout`. -/
inductive TimerState where
  | notScheduled
  | scheduled
  | cleared
  deriving Repr, DecidableEq

/-- The `finally` combinator on a settled promise chain: the settlement is
kept and the cleanup runs on the side state unconditionally. -/
def jsFinallyCleanup {A S : Type} (settlement : A) (cleanup : S → S) (st : S) : A × S :=
  (settlement, cleanup st)

/-- `createTaskFor` from the executor: without a configured timeout it
returns the bare handler invocation (no timer exists); with a timeout it runs
`Promise.race([handler, timer()])` — the race settles like the handler when
the handler settles first and rejects with the timeout `PromisePoolError`
when the timer fires first — and `.finally(canceller)` clears the scheduled
timer in both cases. Returns the race settlement and the final timer state. -/
def createTaskForModel {T R : Type} (cfg : Config T R) (tm : TaskModel T R) :
    HandlerResult R × TimerState :=
  match cfg.taskTimeout with
  | none => (tm.handler, TimerState.notScheduled)
  | some t =>
    let raceSettlement :=
      if tm.beatsTimer then tm.handler
      else HandlerResult.throws (ThrownError.other (JsValue.errV (timeoutMessage t)))
    jsFinallyCleanup raceSettlement (fun _ => TimerState.cleared) TimerState.scheduled

/-- The settlement of the promise returned by `createTaskFor` for this task. -/
def createTaskOutcome {T R : Type} (cfg : Config T R) (tm : TaskModel T R) :
    HandlerResult R :=
  (createTaskForModel cfg tm).1

/-- The executor state threaded through one `process` invocation: the items
not yet pulled from the source (in source order), the index the next pulled
item receives, the active task set (`meta.tasks`, paired with each task's
launch index), the `results` and `errors` collections, the `processedItems`
log, the `stopped` flag, and — when a rejection escaped a task chain or the
main loop — the fatal error with which `run()` rejects. -/
structure PoolState (T R : Type) where
  pending : List (TaskModel T R)
  nextIndex : Nat
  tasks : List (Nat × TaskModel T R)
  results : List (Cell R)
  errors : List (PromisePoolError T)
  processedItems : List T
  stopped : Bool
  fatal : Option ThrownError
  deriving Repr, DecidableEq

/-- The state at the start of `process`, after `prepareResultsArray`: for an
array source in corresponding-results mode the `results` array is pre-filled
with `notRun` at every position; otherwise it starts empty. -/
def initState {T R : Type} (cfg : Config T R) : PoolState T R :=
  { pending := cfg.items
    nextIndex := 0
    tasks := []
    results :=
      if cfg.sourceIsArray && cfg.shouldResultsCorrespond
      then List.replicate cfg.items.length Cell.notRun
      else []
    errors := []
    processedItems := []
    stopped := false
    fatal := none }

/-- The trailing `.finally` of the task chain in `startProcessing`: push the
item onto `processedItems` and run the `onTaskFinished` callbacks. A callback
calling `pool.stop()` sets the flag and throws the stop error out of the
`finally` callback, which rejects the task promise with it. -/
def finalizeSettle {T R : Type} (s : PoolState T R) (tm : TaskModel T R) : PoolState T R :=
  let s1 := { s with processedItems := s.processedItems ++ [tm.item] }
  if tm.finishCbStops then
    { s1 with stopped := true, fatal := some ThrownError.stopError }
  else s1

/-- Settlement of the active task at position `i` of the active set,
translating the task chain of `startProcessing` together with
`save`, `handleErrorFor`, `runErrorHandlerFor`, `rethrowIfNotStoppingThePool`
and `saveErrorFor`:

* fulfillment runs `save(result, index)` (write at the launch index in
  corresponding mode, append otherwise) and `removeActive(task)`;
* rejection runs `handleErrorFor(error, item, index)`: in corresponding mode
  the slot is first marked `failed`; a `StopThePromisePoolError` is swallowed;
  a `ValidationError` marks the pool stopped and is rethrown — which skips
  `removeActive` and leaves the task promise rejected; otherwise the custom
  error handler runs when installed (a thrown stop error is swallowed by
  `rethrowIfNotStoppingThePool`, any other throw is rethrown, again skipping
  `removeActive`), and without one `saveErrorFor` wraps the error via
  `PromisePoolError.createFrom` (whose constructor itself throws on `null`)
  and appends it to `errors`;
* the `stopped` flag also becomes set when the handler (or the error handler)
  called `pool.stop()` during its run;
* the `finally` of the chain always runs (`finalizeSettle`). -/
def settleStep {T R : Type} (cfg : Config T R) (s : PoolState T R)
    (i idx : Nat) (tm : TaskModel T R) : PoolState T R :=
    let stopped1 := s.stopped || tm.handlerStops
    let removed := s.tasks.eraseIdx i
    match createTaskOutcome cfg tm with
    | .value v =>
      let results :=
        if cfg.shouldResultsCorrespond then jsArraySet s.results idx (Cell.value v)
        else s.results ++ [Cell.value v]
      finalizeSettle { s with stopped := stopped1, tasks := removed, results := results } tm
    | .throws e =>
      let results :=
        if cfg.shouldResultsCorrespond then jsArraySet s.results idx Cell.failed
        else s.results
      match e with
      | .stopError =>
        finalizeSettle { s with stopped := stopped1, tasks := removed, results := results } tm
      | .validationError m =>
        finalizeSettle
          { s with stopped := true, results := results,
                   fatal := some (ThrownError.validationError m) } tm
      | .other v =>
        if cfg.hasErrorHandler then
          let stopped2 := stopped1 || tm.ehStops
          match tm.ehThrows with
          | none =>
            finalizeSettle
              { s with stopped := stopped2, tasks := removed, results := results } tm
          | some ThrownError.stopError =>
            finalizeSettle
              { s with stopped := stopped2, tasks := removed, results := results } tm
          | some (ThrownError.validationError m2) =>
            finalizeSettle
              { s with stopped := stopped2, results := results,
                       fatal := some (ThrownError.validationError m2) } tm
          | some (ThrownError.other v2) =>
            finalizeSettle
              { s with stopped := stopped2, results := results,
                       fatal := some (ThrownError.other v2) } tm
        else
          match PromisePoolError.createFrom v tm.item with
          | .ok pe =>
            finalizeSettle
              { s with stopped := stopped1, tasks := removed,
                       errors := s.errors ++ [pe], results := results } tm
          | .error (.typeError m) =>
            finalizeSettle
              { s with stopped := stopped1, results := results,
                       fatal := some (ThrownError.other (JsValue.errV m)) } tm

/-- Settlement of the active task at list position `i`: look the task up in
the active set and run its settlement continuation. -/
def settleTask {T R : Type} (cfg : Config T R) (s : PoolState T R) (i : Nat) :
    Option (PoolState T R) :=
  match s.tasks[i]? with
  | none => none
  | some (idx, tm) => some (settleStep cfg s i idx tm)

/-- One iteration of the main loop of `process` when the loop is runnable:
the loop only reaches the next pull when `stopped` is unset (it breaks
otherwise) and after `waitForProcessingSlot` has seen the active count drop
below the concurrency limit. Pulling the next item marks its slot `notRun` in
corresponding mode, launches its task (`startProcessing` pushes the task onto
the active set) and then runs the `onTaskStarted` callbacks synchronously — a
callback calling `pool.stop()` sets the flag and its thrown stop error
propagates out of `process`, rejecting `run()`. -/
def launchState {T R : Type} (cfg : Config T R) (s : PoolState T R)
    (tm : TaskModel T R) (rest : List (TaskModel T R)) : PoolState T R :=
  let results :=
    if cfg.shouldResultsCorrespond then jsArraySet s.results s.nextIndex Cell.notRun
    else s.results
  let s1 : PoolState T R :=
    { s with pending := rest
             nextIndex := s.nextIndex + 1
             tasks := s.tasks ++ [(s.nextIndex, tm)]
             results := results }
  if tm.startCbStops then
    { s1 with stopped := true, fatal := some ThrownError.stopError }
  else s1

/-- The guard of one loop iteration: the loop breaks once `stopped` is set,
and `waitForProcessingSlot` only lets the loop pull the next item once the
active count is below the (current) concurrency limit. -/
def pullNext {T R : Type} (cfg : Config T R) (s : PoolState T R) :
    Option (PoolState T R) :=
  match s.pending with
  | [] => none
  | tm :: rest =>
    if s.stopped then none
    else if s.tasks.length < cfg.concurrency then
      some (launchState cfg s tm rest)
    else none

/-- A scheduling decision of the event loop: resume the main loop for the
next pull, or run the settlement continuation of the active task at a given
position. -/
inductive Choice where
  | pull
  | settle (i : Nat)
  deriving Repr, DecidableEq

/-- One small step of the interleaved execution. -/
def stepChoice {T R : Type} (cfg : Config T R) (s : PoolState T R) :
    Choice → Option (PoolState T R)
  | .pull => pullNext cfg s
  | .settle i => settleTask cfg s i

/-- Run a whole sequence of scheduling decisions from the initial state. -/
def runTrace {T R : Type} (cfg : Config T R) (cs : List Choice) :
    Option (PoolState T R) :=
  cs.foldlM (fun s c => stepChoice cfg s c) (initState cfg)

/-- The states the executor can be in during one `process` invocation, under
some interleaving of the event loop. -/
inductive Reachable {T R : Type} (cfg : Config T R) : PoolState T R → Prop where
  | init : Reachable cfg (initState cfg)
  | next (s s' : PoolState T R) (c : Choice) :
      Reachable cfg s → stepChoice cfg s c = some s' → Reachable cfg s'

/-- A state in which `run()` resolves: the main loop has exited (source
exhausted or pool stopped), no rejection escaped a task chain or the loop,
and every launched task has settled (its `finally` pushed onto
`processedItems`), so `drained`'s `Promise.all` resolves and `run()` returns
`{ results, errors }`. -/
def resolvedTerminal {T R : Type} (s : PoolState T R) : Prop :=
  (s.pending = [] ∨ s.stopped = true) ∧ s.fatal = none ∧
    s.processedItems.length = s.nextIndex


/-! ### Characterization lemmas for the step function -/

/-- The cell a settled task leaves at its launch index in corresponding mode:
its return value on fulfillment, the `failed` sentinel on any rejection
(including a timeout and the internal stop error). -/
def settledCell {T R : Type} (cfg : Config T R) (tm : TaskModel T R) : Cell R :=
  match createTaskOutcome cfg tm with
  | .value v => Cell.value v
  | .throws _ => Cell.failed

/-- Closed form of `finalizeSettle`. -/
theorem finalizeSettle_eq {T R : Type} (s : PoolState T R) (tm : TaskModel T R) :
    finalizeSettle s tm =
      { s with processedItems := s.processedItems ++ [tm.item]
               stopped := (tm.finishCbStops || s.stopped)
               fatal := if tm.finishCbStops then some ThrownError.stopError else s.fatal } := by
  unfold finalizeSettle
  by_cases h : tm.finishCbStops <;> simp [h]

/-- Fulfillment branch of the task chain: `save` then `removeActive`, then
the `finally`. -/
theorem settleStep_value {T R : Type} (cfg : Config T R) (s : PoolState T R)
    (i idx : Nat) (tm : TaskModel T R) (v : R)
    (h : createTaskOutcome cfg tm = .value v) :
    settleStep cfg s i idx tm =
      { s with stopped := (tm.finishCbStops || (s.stopped || tm.handlerStops))
               tasks := s.tasks.eraseIdx i
               results :=
                 if cfg.shouldResultsCorrespond then jsArraySet s.results idx (Cell.value v)
                 else s.results ++ [Cell.value v]
               processedItems := s.processedItems ++ [tm.item]
               fatal := if tm.finishCbStops then some ThrownError.stopError else s.fatal } := by
  unfold settleStep
  rw [h]
  simp [finalizeSettle_eq]

/-- Rejection with the internal stop error: `handleErrorFor` swallows it, the
task is removed, and (in corresponding mode) the slot was already marked
`failed` before the check. -/
theorem settleStep_stopError {T R : Type} (cfg : Config T R) (s : PoolState T R)
    (i idx : Nat) (tm : TaskModel T R)
    (h : createTaskOutcome cfg tm = .throws ThrownError.stopError) :
    settleStep cfg s i idx tm =
      { s with stopped := (tm.finishCbStops || (s.stopped || tm.handlerStops))
               tasks := s.tasks.eraseIdx i
               results :=
                 if cfg.shouldResultsCorrespond then jsArraySet s.results idx Cell.failed
                 else s.results
               processedItems := s.processedItems ++ [tm.item]
               fatal := if tm.finishCbStops then some ThrownError.stopError else s.fatal } := by
  unfold settleStep
  rw [h]
  simp [finalizeSettle_eq]

/-- Rejection with a `ValidationError`: `handleErrorFor` marks the pool
stopped and rethrows, so `removeActive` is skipped and the task promise stays
rejected — the run will reject. -/
theorem settleStep_validation {T R : Type} (cfg : Config T R) (s : PoolState T R)
    (i idx : Nat) (tm : TaskModel T R) (m : String)
    (h : createTaskOutcome cfg tm = .throws (ThrownError.validationError m)) :
    settleStep cfg s i idx tm =
      { s with stopped := true
               results :=
                 if cfg.shouldResultsCorrespond then jsArraySet s.results idx Cell.failed
                 else s.results
               processedItems := s.processedItems ++ [tm.item]
               fatal := if tm.finishCbStops then some ThrownError.stopError
                        else some (ThrownError.validationError m) } := by
  unfold settleStep
  rw [h]
  simp [finalizeSettle_eq]

/-- Rejection with a user error while a custom error handler is installed and
returns normally (or throws the stop error, which
`rethrowIfNotStoppingThePool` swallows): no entry is appended to `errors` and
the task is removed. -/
theorem settleStep_ehOk {T R : Type} (cfg : Config T R) (s : PoolState T R)
    (i idx : Nat) (tm : TaskModel T R) (v : JsValue)
    (h : createTaskOutcome cfg tm = .throws (ThrownError.other v))
    (hEH : cfg.hasErrorHandler = true)
    (hT : tm.ehThrows = none ∨ tm.ehThrows = some ThrownError.stopError) :
    settleStep cfg s i idx tm =
      { s with stopped := (tm.finishCbStops || (s.stopped || tm.handlerStops || tm.ehStops))
               tasks := s.tasks.eraseIdx i
               results :=
                 if cfg.shouldResultsCorrespond then jsArraySet s.results idx Cell.failed
                 else s.results
               processedItems := s.processedItems ++ [tm.item]
               fatal := if tm.finishCbStops then some ThrownError.stopError else s.fatal } := by
  unfold settleStep
  rw [h]
  rcases hT with hT | hT <;> simp [hEH, hT, finalizeSettle_eq, Bool.or_assoc]

/-- Rejection with a user error while the custom error handler itself throws
something other than the stop error: `rethrowIfNotStoppingThePool` rethrows,
`removeActive` is skipped, and the run will reject with that error. -/
theorem settleStep_ehFatal {T R : Type} (cfg : Config T R) (s : PoolState T R)
    (i idx : Nat) (tm : TaskModel T R) (v : JsValue) (e2 : ThrownError)
    (h : createTaskOutcome cfg tm = .throws (ThrownError.other v))
    (hEH : cfg.hasErrorHandler = true)
    (hT : tm.ehThrows = some e2) (hne : e2 ≠ ThrownError.stopError) :
    settleStep cfg s i idx tm =
      { s with stopped := (tm.finishCbStops || (s.stopped || tm.handlerStops || tm.ehStops))
               results :=
                 if cfg.shouldResultsCorrespond then jsArraySet s.results idx Cell.failed
                 else s.results
               processedItems := s.processedItems ++ [tm.item]
               fatal := if tm.finishCbStops then some ThrownError.stopError else some e2 } := by
  unfold settleStep
  rw [h]
  rcases e2 with _ | m2 | v2
  · exact absurd rfl hne
  · simp [hEH, hT, finalizeSettle_eq, Bool.or_assoc]
  · simp [hEH, hT, finalizeSettle_eq, Bool.or_assoc]

/-- Rejection with a user error, no custom error handler, and the
`PromisePoolError` wrapper constructible: `saveErrorFor` appends the wrapped
error and the task is removed. -/
theorem settleStep_recorded {T R : Type} (cfg : Config T R) (s : PoolState T R)
    (i idx : Nat) (tm : TaskModel T R) (v : JsValue) (pe : PromisePoolError T)
    (h : createTaskOutcome cfg tm = .throws (ThrownError.other v))
    (hEH : cfg.hasErrorHandler = false)
    (hCF : PromisePoolError.createFrom v tm.item = .ok pe) :
    settleStep cfg s i idx tm =
      { s with stopped := (tm.finishCbStops || (s.stopped || tm.handlerStops))
               tasks := s.tasks.eraseIdx i
               results :=
                 if cfg.shouldResultsCorrespond then jsArraySet s.results idx Cell.failed
                 else s.results
               errors := s.errors ++ [pe]
               processedItems := s.processedItems ++ [tm.item]
               fatal := if tm.finishCbStops then some ThrownError.stopError else s.fatal } := by
  unfold settleStep
  rw [h]
  simp [hEH, hCF, finalizeSettle_eq]

/-- Rejection with a user error, no custom error handler, and the
`PromisePoolError` constructor itself throwing (a `null` rejection value):
the `TypeError` escapes the `catch` continuation, `removeActive` is skipped,
and the run will reject. -/
theorem settleStep_wrapFatal {T R : Type} (cfg : Config T R) (s : PoolState T R)
    (i idx : Nat) (tm : TaskModel T R) (v : JsValue) (m : String)
    (h : createTaskOutcome cfg tm = .throws (ThrownError.other v))
    (hEH : cfg.hasErrorHandler = false)
    (hCF : PromisePoolError.createFrom v tm.item = .error (.typeError m)) :
    settleStep cfg s i idx tm =
      { s with stopped := (tm.finishCbStops || (s.stopped || tm.handlerStops))
               results :=
                 if cfg.shouldResultsCorrespond then jsArraySet s.results idx Cell.failed
                 else s.results
               processedItems := s.processedItems ++ [tm.item]
               fatal := if tm.finishCbStops then some ThrownError.stopError
                        else some (ThrownError.other (JsValue.errV m)) } := by
  unfold settleStep
  rw [h]
  simp [hEH, hCF, finalizeSettle_eq]

/-- Closed form of `launchState`. -/
theorem launchState_eq {T R : Type} (cfg : Config T R) (s : PoolState T R)
    (tm : TaskModel T R) (rest : List (TaskModel T R)) :
    launchState cfg s tm rest =
      { s with pending := rest
               nextIndex := s.nextIndex + 1
               tasks := s.tasks ++ [(s.nextIndex, tm)]
               results :=
                 if cfg.shouldResultsCorrespond then jsArraySet s.results s.nextIndex Cell.notRun
                 else s.results
               stopped := (tm.startCbStops || s.stopped)
               fatal := if tm.startCbStops then some ThrownError.stopError else s.fatal } := by
  unfold launchState
  by_cases h : tm.startCbStops <;> simp [h]

/-- When a pull succeeds: the loop was runnable (not stopped, below the
concurrency limit, item available) and the state is the launch of the head
item. -/
theorem pullNext_eq_some {T R : Type} (cfg : Config T R) (s s' : PoolState T R) :
    pullNext cfg s = some s' ↔
      ∃ tm rest, s.pending = tm :: rest ∧ s.stopped = false ∧
        s.tasks.length < cfg.concurrency ∧ s' = launchState cfg s tm rest := by
  unfold pullNext
  cases hp : s.pending with
  | nil => simp
  | cons tm rest =>
    cases hs : s.stopped with
    | true => simp [hs]
    | false =>
      by_cases hc : s.tasks.length < cfg.concurrency
      · simp only [hs, hc, Bool.false_eq_true, if_false, if_true, Option.some.injEq,
          List.cons.injEq, true_and, eq_self_iff_true]
        constructor
        · intro h
          exact ⟨tm, rest, ⟨rfl, rfl⟩, h.symm⟩
        · rintro ⟨tm2, rest2, ⟨h1, h2⟩, h⟩
          subst h1; subst h2
          exact h.symm
      · simp [hs, hc]

/-- When a settle succeeds: some active task exists at that position and the
new state is its settlement. -/
theorem settleTask_eq_some {T R : Type} (cfg : Config T R) (s s' : PoolState T R)
    (i : Nat) :
    settleTask cfg s i = some s' ↔
      ∃ idx tm, s.tasks[i]? = some (idx, tm) ∧ s' = settleStep cfg s i idx tm := by
  unfold settleTask
  cases ht : s.tasks[i]? with
  | none => simp
  | some p => cases p with
    | mk idx tm =>
      simp only [Option.some.injEq, Prod.mk.injEq]
      constructor
      · intro h
        exact ⟨idx, tm, ⟨rfl, rfl⟩, h.symm⟩
      · rintro ⟨idx2, tm2, ⟨h1, h2⟩, h⟩
        subst h1; subst h2; subst h
        rfl


/-! ### List surgery facts used for the active-set bookkeeping -/

/-- Decomposition of a list at a position known to hold an element. -/
theorem listSplitAt {A : Type} {l : List A} {i : Nat} {a : A} (h : l[i]? = some a) :
    l = l.take i ++ a :: l.drop (i + 1) ∧
      l.eraseIdx i = l.take i ++ l.drop (i + 1) := by
  obtain ⟨hlt, hget⟩ := List.getElem?_eq_some.mp h
  constructor
  · conv_lhs => rw [← List.take_append_drop i l]
    rw [List.drop_eq_getElem_cons hlt, hget]
  · exact List.eraseIdx_eq_take_drop_succ l i

/-- Removing the settled task keeps every other active task. -/
theorem mem_eraseIdx_of_ne {A : Type} {l : List A} {i : Nat} {a b : A}
    (h : l[i]? = some a) (hb : b ∈ l) (hne : b ≠ a) : b ∈ l.eraseIdx i := by
  obtain ⟨hl, he⟩ := listSplitAt h
  rw [he]
  rw [hl] at hb
  simp only [List.mem_append, List.mem_cons] at hb ⊢
  rcases hb with hb | hb | hb
  · exact Or.inl hb
  · exact absurd hb hne
  · exact Or.inr hb

/-- With pairwise-distinct launch indices, the settled task's launch index is
gone from the active set after `removeActive`. -/
theorem idx_not_mem_eraseIdx {A B : Type} {l : List (A × B)} {i : Nat}
    {a : A} {b : B} (h : l[i]? = some (a, b)) (nd : (l.map Prod.fst).Nodup) :
    a ∉ (l.eraseIdx i).map Prod.fst := by
  obtain ⟨hl, he⟩ := listSplitAt h
  rw [he]
  rw [hl] at nd
  simp only [List.map_append, List.map_cons, List.nodup_append, List.nodup_cons] at nd
  obtain ⟨-, ⟨hnotd, -⟩, hdisj⟩ := nd
  simp only [List.map_append, List.mem_append]
  rintro (hmem | hmem)
  · exact hdisj hmem (List.mem_cons_self _ _)
  · exact hnotd hmem

/-! ### Uniform shape of a settlement step -/

/-- Every settlement leaves the pending source and the launch counter alone,
logs the item as processed, can only switch `stopped` on, and either removes
the settled task (keeping `fatal` except for a throwing `onTaskFinished`
callback) or — in the rethrowing branches — leaves the task in the active set
with `fatal` set. In corresponding mode the settled slot is always written
with the task's settled cell. -/
theorem settleStep_shape {T R : Type} (cfg : Config T R) (s : PoolState T R)
    (i idx : Nat) (tm : TaskModel T R) :
    (settleStep cfg s i idx tm).pending = s.pending ∧
    (settleStep cfg s i idx tm).nextIndex = s.nextIndex ∧
    (settleStep cfg s i idx tm).processedItems = s.processedItems ++ [tm.item] ∧
    (s.stopped = true → (settleStep cfg s i idx tm).stopped = true) ∧
    (cfg.shouldResultsCorrespond = true →
      (settleStep cfg s i idx tm).results = jsArraySet s.results idx (settledCell cfg tm)) ∧
    ((settleStep cfg s i idx tm).tasks = s.tasks.eraseIdx i ∧
       (settleStep cfg s i idx tm).fatal =
         (if tm.finishCbStops then some ThrownError.stopError else s.fatal) ∨
     (settleStep cfg s i idx tm).tasks = s.tasks ∧
       (settleStep cfg s i idx tm).fatal ≠ none) := by
  cases hout : createTaskOutcome cfg tm with
  | value v =>
    rw [settleStep_value cfg s i idx tm v hout]
    refine ⟨rfl, rfl, rfl, fun h => by simp [h], fun hc => by simp [hc, settledCell, hout], ?_⟩
    exact Or.inl ⟨rfl, rfl⟩
  | throws e =>
    cases e with
    | stopError =>
      rw [settleStep_stopError cfg s i idx tm hout]
      refine ⟨rfl, rfl, rfl, fun h => by simp [h], fun hc => by simp [hc, settledCell, hout], ?_⟩
      exact Or.inl ⟨rfl, rfl⟩
    | validationError m =>
      rw [settleStep_validation cfg s i idx tm m hout]
      refine ⟨rfl, rfl, rfl, fun h => rfl, fun hc => by simp [hc, settledCell, hout], ?_⟩
      refine Or.inr ⟨rfl, ?_⟩
      by_cases hf : tm.finishCbStops <;> simp [hf]
    | other v =>
      by_cases hEH : cfg.hasErrorHandler
      · cases hT : tm.ehThrows with
        | none =>
          rw [settleStep_ehOk cfg s i idx tm v hout hEH (Or.inl hT)]
          refine ⟨rfl, rfl, rfl, fun h => by simp [h], fun hc => by simp [hc, settledCell, hout], ?_⟩
          exact Or.inl ⟨rfl, rfl⟩
        | some e2 =>
          by_cases he2 : e2 = ThrownError.stopError
          · subst he2
            rw [settleStep_ehOk cfg s i idx tm v hout hEH (Or.inr hT)]
            refine ⟨rfl, rfl, rfl, fun h => by simp [h], fun hc => by simp [hc, settledCell, hout], ?_⟩
            exact Or.inl ⟨rfl, rfl⟩
          · rw [settleStep_ehFatal cfg s i idx tm v e2 hout hEH hT he2]
            refine ⟨rfl, rfl, rfl, fun h => by simp [h], fun hc => by simp [hc, settledCell, hout], ?_⟩
            refine Or.inr ⟨rfl, ?_⟩
            by_cases hf : tm.finishCbStops <;> simp [hf]
      · have hEH2 : cfg.hasErrorHandler = false := by simpa using hEH
        cases hCF : PromisePoolError.createFrom v tm.item with
        | ok pe =>
          rw [settleStep_recorded cfg s i idx tm v pe hout hEH2 hCF]
          refine ⟨rfl, rfl, rfl, fun h => by simp [h], fun hc => by simp [hc, settledCell, hout], ?_⟩
          exact Or.inl ⟨rfl, rfl⟩
        | error e2 =>
          cases e2 with
          | typeError m =>
            rw [settleStep_wrapFatal cfg s i idx tm v m hout hEH2 hCF]
            refine ⟨rfl, rfl, rfl, fun h => by simp [h], fun hc => by simp [hc, settledCell, hout], ?_⟩
            refine Or.inr ⟨rfl, ?_⟩
            by_cases hf : tm.finishCbStops <;> simp [hf]

/-- A step never resets a fatal rejection. -/
theorem stepChoice_fatal_mono {T R : Type} (cfg : Config T R) {s s' : PoolState T R}
    {c : Choice} (h : stepChoice cfg s c = some s') (hf : s.fatal ≠ none) :
    s'.fatal ≠ none := by
  cases c with
  | pull =>
    obtain ⟨tm, rest, -, -, -, rfl⟩ := (pullNext_eq_some cfg s s').mp h
    rw [launchState_eq]
    by_cases hcb : tm.startCbStops <;> simp [hcb, hf]
  | settle i =>
    obtain ⟨idx, tm, -, rfl⟩ := (settleTask_eq_some cfg s s' i).mp h
    obtain ⟨-, -, -, -, -, hdisj⟩ := settleStep_shape cfg s i idx tm
    rcases hdisj with ⟨-, hfat⟩ | ⟨-, hfat⟩
    · rw [hfat]
      by_cases hcb : tm.finishCbStops <;> simp [hcb, hf]
    · exact hfat

/-- Once the pool is stopped, a step neither launches a task (the loop breaks
before pulling) nor unsets the flag. -/
theorem stepChoice_stopped {T R : Type} (cfg : Config T R) {s s' : PoolState T R}
    {c : Choice} (h : stepChoice cfg s c = some s') (hs : s.stopped = true) :
    s'.nextIndex = s.nextIndex ∧ s'.stopped = true := by
  cases c with
  | pull =>
    obtain ⟨tm, rest, -, hstop, -, rfl⟩ := (pullNext_eq_some cfg s s').mp h
    rw [hstop] at hs
    exact absurd hs (by simp)
  | settle i =>
    obtain ⟨idx, tm, -, rfl⟩ := (settleTask_eq_some cfg s s' i).mp h
    obtain ⟨-, hidx, -, hstop, -, -⟩ := settleStep_shape cfg s i idx tm
    exact ⟨hidx, hstop hs⟩


/-! ### The executor's bookkeeping invariant -/

/-- A successful indexed lookup is a membership. -/
theorem mem_of_lookup {A : Type} {l : List A} {i : Nat} {a : A} (h : l[i]? = some a) :
    a ∈ l := by
  obtain ⟨h1, h2⟩ := List.getElem?_eq_some.mp h
  exact h2 ▸ List.getElem_mem h1

/-- Bookkeeping facts every reachable state satisfies: the pending list is
the not-yet-pulled suffix of the source, active tasks carry in-range,
pairwise-distinct launch indices together with their source item, and — as
long as no rejection has escaped — the launched tasks are partitioned into
the active ones and the settled (processed) ones. -/
structure Inv {T R : Type} (cfg : Config T R) (s : PoolState T R) : Prop where
  pendingSuffix : s.pending = cfg.items.drop s.nextIndex
  indexLe : s.nextIndex ≤ cfg.items.length
  taskIdxLt : ∀ p ∈ s.tasks, p.1 < s.nextIndex
  taskItem : ∀ p ∈ s.tasks, cfg.items[p.1]? = some p.2
  taskNodup : (s.tasks.map Prod.fst).Nodup
  settledCount : s.fatal = none → s.tasks.length + s.processedItems.length = s.nextIndex

theorem inv_init {T R : Type} (cfg : Config T R) : Inv cfg (initState cfg) := by
  constructor <;> simp [initState]

theorem inv_pull {T R : Type} {cfg : Config T R} {s s' : PoolState T R}
    (inv : Inv cfg s) (h : pullNext cfg s = some s') : Inv cfg s' := by
  obtain ⟨tm, rest, hp, hstop, hc, rfl⟩ := (pullNext_eq_some cfg s s').mp h
  have hdrop : cfg.items.drop s.nextIndex = tm :: rest := by
    rw [← inv.pendingSuffix]; exact hp
  have hlt : s.nextIndex < cfg.items.length := by
    by_contra hle
    push_neg at hle
    rw [List.drop_eq_nil_iff.mpr hle] at hdrop
    exact absurd hdrop (by simp)
  rw [launchState_eq]
  constructor
  · show rest = cfg.items.drop (s.nextIndex + 1)
    rw [← List.tail_drop, hdrop]
    rfl
  · show s.nextIndex + 1 ≤ cfg.items.length
    omega
  · intro p hp2
    rcases List.mem_append.mp hp2 with hold | hnew
    · have := inv.taskIdxLt p hold
      show p.1 < s.nextIndex + 1
      omega
    · rw [List.mem_singleton.mp hnew]
      show s.nextIndex < s.nextIndex + 1
      omega
  · intro p hp2
    rcases List.mem_append.mp hp2 with hold | hnew
    · exact inv.taskItem p hold
    · rw [List.mem_singleton.mp hnew]
      show cfg.items[s.nextIndex]? = some tm
      have := List.getElem?_drop cfg.items s.nextIndex 0
      rw [hdrop] at this
      simpa using this.symm
  · show ((s.tasks ++ [(s.nextIndex, tm)]).map Prod.fst).Nodup
    rw [List.map_append]
    rw [List.nodup_append]
    refine ⟨inv.taskNodup, by simp, ?_⟩
    intro a ha hb
    obtain ⟨p, hpmem, rfl⟩ := List.mem_map.mp ha
    have h1 := inv.taskIdxLt p hpmem
    have h2 : p.1 = s.nextIndex := by simpa using hb
    omega
  · intro hf
    show (s.tasks ++ [(s.nextIndex, tm)]).length + s.processedItems.length = s.nextIndex + 1
    by_cases hcb : tm.startCbStops
    · rw [if_pos hcb] at hf
      exact absurd hf (by simp)
    · rw [if_neg hcb] at hf
      have := inv.settledCount hf
      rw [List.length_append]
      simp only [List.length_singleton]
      omega

theorem inv_settle {T R : Type} {cfg : Config T R} {s s' : PoolState T R}
    (inv : Inv cfg s) (i : Nat) (h : settleTask cfg s i = some s') : Inv cfg s' := by
  obtain ⟨idx, tm, ht, rfl⟩ := (settleTask_eq_some cfg s s' i).mp h
  obtain ⟨hpend, hidx, hproc, -, -, hdisj⟩ := settleStep_shape cfg s i idx tm
  have hlen : i < s.tasks.length := (List.getElem?_eq_some.mp ht).1
  rcases hdisj with ⟨htasks, hfat⟩ | ⟨htasks, hfat⟩
  · constructor
    · rw [hpend, hidx]; exact inv.pendingSuffix
    · rw [hidx]; exact inv.indexLe
    · intro p hp2
      rw [hidx]
      exact inv.taskIdxLt p ((List.eraseIdx_sublist _ i).mem (htasks ▸ hp2))
    · intro p hp2
      exact inv.taskItem p ((List.eraseIdx_sublist _ i).mem (htasks ▸ hp2))
    · rw [htasks]
      exact inv.taskNodup.sublist ((List.eraseIdx_sublist _ i).map _)
    · intro hf
      rw [htasks, hproc, hidx]
      rw [hfat] at hf
      by_cases hcb : tm.finishCbStops
      · rw [if_pos hcb] at hf
        exact absurd hf (by simp)
      · rw [if_neg hcb] at hf
        have := inv.settledCount hf
        rw [List.length_eraseIdx_of_lt hlen, List.length_append]
        simp only [List.length_singleton]
        omega
  · constructor
    · rw [hpend, hidx]; exact inv.pendingSuffix
    · rw [hidx]; exact inv.indexLe
    · intro p hp2
      rw [hidx]
      exact inv.taskIdxLt p (htasks ▸ hp2)
    · intro p hp2
      exact inv.taskItem p (htasks ▸ hp2)
    · rw [htasks]; exact inv.taskNodup
    · intro hf
      exact absurd hf hfat

theorem reachable_inv {T R : Type} {cfg : Config T R} {s : PoolState T R}
    (h : Reachable cfg s) : Inv cfg s := by
  induction h with
  | init => exact inv_init cfg
  | next s s' c hr hstep ih =>
    cases c with
    | pull => exact inv_pull ih hstep
    | settle i => exact inv_settle ih i hstep


/-! ### The corresponding-results invariant (array source) -/

/-- For an array source in corresponding-results mode: the `results` array
keeps the source's length at all times, and — while no rejection has escaped
— the slot of every source position tracks its item's fate: `notRun` until
the item's task has settled (never pulled, or pulled and still active), and
the settled cell afterwards. -/
structure CorrInv {T R : Type} (cfg : Config T R) (s : PoolState T R) : Prop where
  resLen : s.results.length = cfg.items.length
  cellAt : s.fatal = none → ∀ i (hi : i < cfg.items.length),
      s.results[i]? = some
        (if s.nextIndex ≤ i then Cell.notRun
         else if i ∈ s.tasks.map Prod.fst then Cell.notRun
         else settledCell cfg (cfg.items[i]))

theorem corrInv_init {T R : Type} (cfg : Config T R)
    (hA : cfg.sourceIsArray = true) (hC : cfg.shouldResultsCorrespond = true) :
    CorrInv cfg (initState cfg) := by
  constructor
  · simp [initState, hA, hC]
  · intro hf i hi
    simp [initState, hA, hC, List.getElem?_replicate, hi]

/-- Membership in the mapped launch indices is unchanged by removing a task
with a different launch index. -/
theorem fst_mem_eraseIdx_iff {A B : Type} {l : List (A × B)} {i : Nat}
    {a : A} {b : B} (h : l[i]? = some (a, b)) {x : A} (hne : x ≠ a) :
    x ∈ (l.eraseIdx i).map Prod.fst ↔ x ∈ l.map Prod.fst := by
  constructor
  · intro hx
    obtain ⟨p, hpmem, rfl⟩ := List.mem_map.mp hx
    exact List.mem_map.mpr ⟨p, (List.eraseIdx_sublist _ i).mem hpmem, rfl⟩
  · intro hx
    obtain ⟨p, hpmem, rfl⟩ := List.mem_map.mp hx
    have hpne : p ≠ (a, b) := by
      intro hcontra
      rw [hcontra] at hne
      exact hne rfl
    exact List.mem_map.mpr ⟨p, mem_eraseIdx_of_ne h hpmem hpne, rfl⟩

theorem corrInv_pull {T R : Type} {cfg : Config T R} {s s' : PoolState T R}
    (hC : cfg.shouldResultsCorrespond = true)
    (inv : Inv cfg s) (cinv : CorrInv cfg s)
    (h : pullNext cfg s = some s') : CorrInv cfg s' := by
  obtain ⟨tm, rest, hp, hstop, hc, rfl⟩ := (pullNext_eq_some cfg s s').mp h
  have hdrop : cfg.items.drop s.nextIndex = tm :: rest := by
    rw [← inv.pendingSuffix]; exact hp
  have hlt : s.nextIndex < cfg.items.length := by
    by_contra hle
    push_neg at hle
    rw [List.drop_eq_nil_iff.mpr hle] at hdrop
    exact absurd hdrop (by simp)
  have hltres : s.nextIndex < s.results.length := by
    rw [cinv.resLen]; exact hlt
  have hset : jsArraySet s.results s.nextIndex Cell.notRun
      = s.results.set s.nextIndex Cell.notRun := by
    unfold jsArraySet
    rw [if_pos hltres]
  rw [launchState_eq]
  constructor
  · show (if cfg.shouldResultsCorrespond then jsArraySet s.results s.nextIndex Cell.notRun
          else s.results).length = cfg.items.length
    rw [if_pos hC, hset, List.length_set]
    exact cinv.resLen
  · intro hf i hi
    by_cases hcb : tm.startCbStops
    · rw [show ((if tm.startCbStops then some ThrownError.stopError else s.fatal) = none)
            = ((some ThrownError.stopError : Option ThrownError) = none) from by rw [if_pos hcb]] at hf
      exact absurd hf (by simp)
    · have hf0 : s.fatal = none := by
        rw [if_neg hcb] at hf
        exact hf
      show (if cfg.shouldResultsCorrespond then jsArraySet s.results s.nextIndex Cell.notRun
            else s.results)[i]? = _
      rw [if_pos hC, hset, List.getElem?_set]
      by_cases hieq : s.nextIndex = i
      · subst hieq
        rw [if_pos rfl, if_pos hltres]
        have h1 : ¬ (s.nextIndex + 1 ≤ s.nextIndex) := by omega
        rw [if_neg h1]
        have h2 : s.nextIndex ∈ (s.tasks ++ [(s.nextIndex, tm)]).map Prod.fst := by
          simp [List.map_append]
        rw [if_pos h2]
      · rw [if_neg hieq]
        rw [cinv.cellAt hf0 i hi]
        congr 1
        by_cases h1 : s.nextIndex ≤ i
        · have h1' : s.nextIndex + 1 ≤ i := by omega
          rw [if_pos h1, if_pos h1']
        · have h1' : ¬ (s.nextIndex + 1 ≤ i) := by omega
          rw [if_neg h1, if_neg h1']
          have hmem : (i ∈ (s.tasks ++ [(s.nextIndex, tm)]).map Prod.fst)
              ↔ i ∈ s.tasks.map Prod.fst := by
            simp only [List.map_append, List.mem_append, List.map_cons, List.map_nil,
              List.mem_singleton]
            constructor
            · rintro (hmem | hmem)
              · exact hmem
              · exact absurd hmem.symm hieq
            · exact Or.inl
          rw [if_congr hmem rfl rfl]

theorem corrInv_settle {T R : Type} {cfg : Config T R} {s s' : PoolState T R}
    (hC : cfg.shouldResultsCorrespond = true)
    (inv : Inv cfg s) (cinv : CorrInv cfg s) (i : Nat)
    (h : settleTask cfg s i = some s') : CorrInv cfg s' := by
  obtain ⟨idx, tm, ht, rfl⟩ := (settleTask_eq_some cfg s s' i).mp h
  obtain ⟨hpend, hidx, hproc, -, hres, hdisj⟩ := settleStep_shape cfg s i idx tm
  have hmem0 : (idx, tm) ∈ s.tasks := mem_of_lookup ht
  have hidxlt : idx < s.nextIndex := inv.taskIdxLt _ hmem0
  have hitem : cfg.items[idx]? = some tm := inv.taskItem _ hmem0
  obtain ⟨hidxlen, hitemget⟩ := List.getElem?_eq_some.mp hitem
  have hltres : idx < s.results.length := by
    rw [cinv.resLen]; exact hidxlen
  have hres' : (settleStep cfg s i idx tm).results
      = s.results.set idx (settledCell cfg tm) := by
    rw [hres hC]
    unfold jsArraySet
    rw [if_pos hltres]
  constructor
  · rw [hres', List.length_set]
    exact cinv.resLen
  · intro hf j hj
    rcases hdisj with ⟨htasks, hfat⟩ | ⟨htasks, hfat⟩
    · by_cases hcb : tm.finishCbStops
      · rw [hfat, if_pos hcb] at hf
        exact absurd hf (by simp)
      · have hf0 : s.fatal = none := by
          rw [hfat, if_neg hcb] at hf
          exact hf
        rw [hres', List.getElem?_set, hidx, htasks]
        by_cases hjeq : idx = j
        · subst hjeq
          rw [if_pos rfl, if_pos hltres]
          have h1 : ¬ (s.nextIndex ≤ idx) := by omega
          rw [if_neg h1]
          have h2 : idx ∉ (s.tasks.eraseIdx i).map Prod.fst :=
            idx_not_mem_eraseIdx ht inv.taskNodup
          rw [if_neg h2, ← hitemget]
        · rw [if_neg hjeq]
          rw [cinv.cellAt hf0 j hj]
          congr 1
          by_cases h1 : s.nextIndex ≤ j
          · rw [if_pos h1, if_pos h1]
          · rw [if_neg h1, if_neg h1]
            have hmem := fst_mem_eraseIdx_iff ht (fun hcontra => hjeq hcontra.symm)
            rw [if_congr hmem rfl rfl]
    · exact absurd hf hfat


theorem reachable_corrInv {T R : Type} {cfg : Config T R}
    (hA : cfg.sourceIsArray = true) (hC : cfg.shouldResultsCorrespond = true)
    {s : PoolState T R} (h : Reachable cfg s) : CorrInv cfg s := by
  induction h with
  | init => exact corrInv_init cfg hA hC
  | next s s' c hr hstep ih =>
    cases c with
    | pull => exact corrInv_pull hC (reachable_inv hr) ih hstep
    | settle i => exact corrInv_settle hC (reachable_inv hr) ih i hstep

/-! ### Claim theorems -/

/-- C1: for every concurrency limit n ≥ 1 (held fixed for the run) and every
item list, the size of the active task set never exceeds n in any reachable
state — in particular at every scheduling decision point. The loop launches a
task only after `waitForProcessingSlot` has seen the active count drop below
the limit, so a launch raises the count to at most the limit, and a
settlement only lowers or preserves it. -/
theorem claim1_concurrency_bound {T R : Type} (cfg : Config T R)
    (hn : 1 ≤ cfg.concurrency) {s : PoolState T R} (hs : Reachable cfg s) :
    s.tasks.length ≤ cfg.concurrency := by
  induction hs with
  | init => simp [initState]
  | next s s' c hr hstep ih =>
    cases c with
    | pull =>
      obtain ⟨tm, rest, -, -, hc, rfl⟩ := (pullNext_eq_some cfg s s').mp hstep
      rw [launchState_eq]
      show (s.tasks ++ [(s.nextIndex, tm)]).length ≤ cfg.concurrency
      rw [List.length_append]
      simp only [List.length_singleton]
      omega
    | settle i =>
      obtain ⟨idx, tm, ht, rfl⟩ := (settleTask_eq_some cfg s s' i).mp hstep
      obtain ⟨-, -, -, -, -, hdisj⟩ := settleStep_shape cfg s i idx tm
      have hlen : i < s.tasks.length := (List.getElem?_eq_some.mp ht).1
      rcases hdisj with ⟨htasks, -⟩ | ⟨htasks, -⟩
      · rw [htasks, List.length_eraseIdx_of_lt hlen]
        omega
      · rw [htasks]
        exact ih

/-- Configuration used to witness C1. -/
def cfgW1 : Config Nat Nat :=
  { concurrency := 2, shouldResultsCorrespond := false, taskTimeout := none,
    hasErrorHandler := false, sourceIsArray := true, items := [] }

/-- Witness for C1 at a concrete configuration and the initial state. -/
theorem claim1_witness :
    1 ≤ cfgW1.concurrency ∧ (initState cfgW1).tasks.length ≤ cfgW1.concurrency :=
  ⟨by decide, claim1_concurrency_bound cfgW1 (by decide) Reachable.init⟩

/-- C3: once the `stopped` flag is set, no step launches a task (the loop
checks `isStopped()` before launching and breaks) and the flag stays set;
and in every state in which `run()` resolves, the active set has drained and
every launched task has settled and been recorded (its `finally` pushed the
item onto `processedItems`, its settlement having written the result or
error beforehand). -/
theorem claim3_stop_semantics {T R : Type} (cfg : Config T R) :
    (∀ s s' : PoolState T R, ∀ c : Choice, stepChoice cfg s c = some s' →
       s.stopped = true → s'.nextIndex = s.nextIndex ∧ s'.stopped = true) ∧
    (∀ s : PoolState T R, Reachable cfg s → resolvedTerminal s →
       s.tasks = [] ∧ s.processedItems.length = s.nextIndex) := by
  constructor
  · intro s s' c h hs
    exact stepChoice_stopped cfg h hs
  · intro s hr ht
    obtain ⟨hloop, hfat, hproc⟩ := ht
    have hcount := (reachable_inv hr).settledCount hfat
    have hzero : s.tasks.length = 0 := by omega
    exact ⟨List.length_eq_zero.mp hzero, hproc⟩

/-- Configuration used to witness C3. -/
def cfgW3 : Config Nat Nat :=
  { concurrency := 3, shouldResultsCorrespond := false, taskTimeout := none,
    hasErrorHandler := false, sourceIsArray := true, items := [] }

/-- Witness for C3: the resolved state of the empty run has an empty active
set and all launched tasks recorded. -/
theorem claim3_witness :
    (initState cfgW3).tasks = [] ∧
      (initState cfgW3).processedItems.length = (initState cfgW3).nextIndex :=
  (claim3_stop_semantics cfgW3).2 (initState cfgW3) Reachable.init
    ⟨Or.inl rfl, rfl, rfl⟩


/-- C2: for an array source in corresponding-results mode, in every state in
which `run()` resolves the results array has the source's length, and the
slot of position i is: the handler's return value when item i's task settled
successfully, the `failed` sentinel when its task's settlement was a
rejection (handler error, timeout, or unwinding stop error), and the `notRun`
sentinel exactly when item i's task was never launched — which forces the
pool to have been stopped. -/
theorem claim2_corresponding_results {T R : Type} (cfg : Config T R)
    (hA : cfg.sourceIsArray = true) (hC : cfg.shouldResultsCorrespond = true)
    {s : PoolState T R} (hs : Reachable cfg s) (ht : resolvedTerminal s) :
    s.results.length = cfg.items.length ∧
    ∀ i (hi : i < cfg.items.length),
      (s.results[i]? = some Cell.notRun ↔ s.nextIndex ≤ i) ∧
      (s.nextIndex ≤ i → s.stopped = true) ∧
      (i < s.nextIndex →
        s.results[i]? = some
          (match createTaskOutcome cfg (cfg.items.get ⟨i, hi⟩) with
           | .value v => Cell.value v
           | .throws _ => Cell.failed)) := by
  obtain ⟨hloop, hfat, hproc⟩ := ht
  have inv := reachable_inv hs
  have cinv := reachable_corrInv hA hC hs
  have hcount := inv.settledCount hfat
  have htasks : s.tasks = [] := by
    have hzero : s.tasks.length = 0 := by omega
    exact List.length_eq_zero.mp hzero
  refine ⟨cinv.resLen, ?_⟩
  intro i hi
  have hcell := cinv.cellAt hfat i hi
  rw [htasks] at hcell
  simp only [List.map_nil, List.not_mem_nil, if_false] at hcell
  refine ⟨?_, ?_, ?_⟩
  · constructor
    · intro hru
      by_contra hgt
      push_neg at hgt
      rw [if_neg (by omega)] at hcell
      rw [hcell] at hru
      have := Option.some.inj hru
      unfold settledCell at this
      revert this
      cases createTaskOutcome cfg (cfg.items.get ⟨i, hi⟩) with
      | value v =>
        intro hcontra
        cases hcontra
      | throws e =>
        intro hcontra
        cases hcontra
    · intro hle
      rw [if_pos hle] at hcell
      exact hcell
  · intro hle
    rcases hloop with hpend | hstop
    · rw [inv.pendingSuffix] at hpend
      rw [List.drop_eq_nil_iff] at hpend
      omega
    · exact hstop
  · intro hgt
    rw [if_neg (by omega)] at hcell
    rw [hcell]
    unfold settledCell
    rfl

/-- A task behaviour whose handler fulfills with the given value and whose
user code never calls `stop()` or throws from callbacks. -/
def plainValueTask (item v : Nat) : TaskModel Nat Nat :=
  { item := item, handler := .value v, handlerStops := false, beatsTimer := true,
    ehThrows := none, ehStops := false, startCbStops := false, finishCbStops := false }

/-- Configuration used to witness C2: one item, corresponding results. -/
def cfgW2 : Config Nat Nat :=
  { concurrency := 1, shouldResultsCorrespond := true, taskTimeout := none,
    hasErrorHandler := false, sourceIsArray := true, items := [plainValueTask 7 42] }

/-- The state after launching the single item of `cfgW2`. -/
def stW2a : PoolState Nat Nat := launchState cfgW2 (initState cfgW2) (plainValueTask 7 42) []

/-- The state after the single task of `cfgW2` settled. -/
def stW2b : PoolState Nat Nat := settleStep cfgW2 stW2a 0 0 (plainValueTask 7 42)

/-- The final state of the `cfgW2` run is reachable. -/
theorem stW2b_reachable : Reachable cfgW2 stW2b :=
  Reachable.next stW2a stW2b (Choice.settle 0)
    (Reachable.next (initState cfgW2) stW2a Choice.pull Reachable.init rfl) rfl

/-- Witness for C2 at the concrete one-item run of `cfgW2`. -/
theorem claim2_witness :
    stW2b.results.length = cfgW2.items.length ∧
    (stW2b.results[0]? = some Cell.notRun ↔ stW2b.nextIndex ≤ 0) ∧
    (0 < stW2b.nextIndex →
      stW2b.results[0]? = some
        (match createTaskOutcome cfgW2 (cfgW2.items.get ⟨0, by decide⟩) with
         | .value v => Cell.value v
         | .throws _ => Cell.failed)) :=
  have h := claim2_corresponding_results cfgW2 rfl rfl stW2b_reachable
    ⟨Or.inl rfl, rfl, rfl⟩
  ⟨h.1, (h.2 0 (by decide)).1, (h.2 0 (by decide)).2.2⟩


/-- C8 (amended): every settlement that does not end in a rethrow removes the
settled task — and only it — from the active set, and a state in which
`run()` resolves has an empty active set. In the rethrowing branches
(`ValidationError`, an error handler throwing a non-stop error, a `null`
rejection value breaking the error wrapper) `removeActive` is skipped and the
task stays in the active set while `run()` rejects. -/
theorem claim8_amended {T R : Type} (cfg : Config T R) :
    (∀ (s s' : PoolState T R) (i : Nat), settleTask cfg s i = some s' →
       s'.fatal = none →
       s'.tasks = s.tasks.eraseIdx i ∧ s'.tasks.length + 1 = s.tasks.length) ∧
    (∀ s : PoolState T R, Reachable cfg s → resolvedTerminal s → s.tasks = []) := by
  constructor
  · intro s s' i h hf
    obtain ⟨idx, tm, ht, rfl⟩ := (settleTask_eq_some cfg s s' i).mp h
    obtain ⟨-, -, -, -, -, hdisj⟩ := settleStep_shape cfg s i idx tm
    have hlen : i < s.tasks.length := (List.getElem?_eq_some.mp ht).1
    rcases hdisj with ⟨htasks, -⟩ | ⟨-, hfat⟩
    · refine ⟨htasks, ?_⟩
      rw [htasks, List.length_eraseIdx_of_lt hlen]
      omega
    · exact absurd hf hfat
  · intro s hr ht
    obtain ⟨-, hfat, hproc⟩ := ht
    have hcount := (reachable_inv hr).settledCount hfat
    have hzero : s.tasks.length = 0 := by omega
    exact List.length_eq_zero.mp hzero

/-- Task behaviour whose handler rejects with a `ValidationError`, as a
handler that calls `pool.useConcurrency(0)` does. -/
def validationThrowTask : TaskModel Nat Nat :=
  { item := 7
    handler := .throws (.validationError
      "concurrency must be a number, 1 or up. Received 0 (number)")
    handlerStops := false, beatsTimer := true, ehThrows := none,
    ehStops := false, startCbStops := false, finishCbStops := false }

/-- Configuration refuting C8 as stated: a single item whose handler rejects
with a `ValidationError`. -/
def cfgX8 : Config Nat Nat :=
  { concurrency := 2, shouldResultsCorrespond := false, taskTimeout := none,
    hasErrorHandler := false, sourceIsArray := true, items := [validationThrowTask] }

/-- Counterexample to C8 as stated: after launching the item and settling its
task, the settlement rethrows the `ValidationError` (so `run()` rejects with
it — the run has terminated), yet `removeActive` was skipped and the active
task set still holds the task: the set is not empty after `run()` rejects. -/
theorem claim8_counterexample :
    (runTrace cfgX8 [Choice.pull, Choice.settle 0]).map
        (fun s => (s.tasks.length, s.fatal)) =
      some (1, some (ThrownError.validationError
        "concurrency must be a number, 1 or up. Received 0 (number)")) := by
  rfl

/-- Configuration used to witness the amended C8. -/
def cfgW8 : Config Nat Nat :=
  { concurrency := 1, shouldResultsCorrespond := false, taskTimeout := none,
    hasErrorHandler := false, sourceIsArray := true, items := [plainValueTask 3 9] }

/-- The state after launching the single item of `cfgW8`. -/
def stW8a : PoolState Nat Nat := launchState cfgW8 (initState cfgW8) (plainValueTask 3 9) []

/-- The state after the single task of `cfgW8` settled. -/
def stW8b : PoolState Nat Nat := settleStep cfgW8 stW8a 0 0 (plainValueTask 3 9)

/-- Witness for the amended C8: the concrete settlement removes the task and
the resolved final state has an empty active set. -/
theorem claim8_witness :
    (stW8b.tasks = stW8a.tasks.eraseIdx 0 ∧ stW8b.tasks.length + 1 = stW8a.tasks.length) ∧
      stW8b.tasks = [] :=
  ⟨(claim8_amended cfgW8).1 stW8a stW8b 0 rfl rfl,
   (claim8_amended cfgW8).2 stW8b
     (Reachable.next stW8a stW8b (Choice.settle 0)
       (Reachable.next (initState cfgW8) stW8a Choice.pull Reachable.init rfl) rfl)
     ⟨Or.inl rfl, rfl, rfl⟩⟩


/-- Wrapping any rejection value other than `null` succeeds. -/
theorem createFrom_ok_of_ne_null {T : Type} (v : JsValue) (item : T)
    (h : v ≠ JsValue.nullV) :
    ∃ pe, PromisePoolError.createFrom v item = .ok pe := by
  cases v <;> first
    | exact absurd rfl h
    | exact ⟨_, rfl⟩

/-- A task behaviour matching C4's assumptions: no `stop()` call anywhere, no
configuration error, and a settlement that is either a fulfillment or a
rejection whose value the error wrapper can handle (not `null`). The
settlement is taken after the timeout race, so a timed-out task qualifies. -/
def plainTask {T R : Type} (cfg : Config T R) (tm : TaskModel T R) : Prop :=
  tm.handlerStops = false ∧ tm.startCbStops = false ∧ tm.finishCbStops = false ∧
  (match createTaskOutcome cfg tm with
   | .value _ => True
   | .throws (.other v) => v ≠ JsValue.nullV
   | .throws _ => False)

/-- C4: in default (non-corresponding) mode with no custom error handler, no
`stop()` call and no configuration error during processing, every item ends
in exactly one of the two collections: when `run()` resolves,
`results.length + errors.length` equals the source length. -/
theorem claim4_default_partition {T R : Type} (cfg : Config T R)
    (hC : cfg.shouldResultsCorrespond = false)
    (hEH : cfg.hasErrorHandler = false)
    (hall : ∀ tm ∈ cfg.items, plainTask cfg tm)
    {s : PoolState T R} (hs : Reachable cfg s) (ht : resolvedTerminal s) :
    s.results.length + s.errors.length = cfg.items.length := by
  have key : ∀ u : PoolState T R, Reachable cfg u →
      u.stopped = false ∧ u.fatal = none ∧
      u.results.length + u.errors.length + u.tasks.length + u.pending.length
        = cfg.items.length ∧
      (∀ p ∈ u.tasks, plainTask cfg p.2) := by
    intro u hu
    induction hu with
    | init =>
      refine ⟨rfl, rfl, ?_, by simp [initState]⟩
      simp [initState, hC]
    | next u u' c hr hstep ih =>
      obtain ⟨ihstop, ihfat, ihsum, ihtasks⟩ := ih
      cases c with
      | pull =>
        obtain ⟨tm, rest, hp, -, -, rfl⟩ := (pullNext_eq_some cfg u u').mp hstep
        have htm : tm ∈ cfg.items := by
          have : tm ∈ u.pending := by rw [hp]; exact List.mem_cons_self tm rest
          rw [(reachable_inv hr).pendingSuffix] at this
          exact List.mem_of_mem_drop this
        obtain ⟨-, hstart, -, -⟩ := hall tm htm
        rw [launchState_eq]
        refine ⟨?_, ?_, ?_, ?_⟩
        · show (tm.startCbStops || u.stopped) = false
          rw [hstart, ihstop]
          rfl
        · show (if tm.startCbStops then some ThrownError.stopError else u.fatal) = none
          rw [hstart]
          exact ihfat
        · show (if cfg.shouldResultsCorrespond then _ else u.results).length
              + u.errors.length + (u.tasks ++ [(u.nextIndex, tm)]).length
              + rest.length = cfg.items.length
          rw [if_neg (by rw [hC]; exact Bool.false_ne_true), List.length_append]
          have hplen : u.pending.length = rest.length + 1 := by
            rw [hp]
            rfl
          simp only [List.length_singleton]
          omega
        · intro p hp2
          rcases List.mem_append.mp hp2 with hold | hnew
          · exact ihtasks p hold
          · rw [List.mem_singleton.mp hnew]
            exact hall tm htm
      | settle i =>
        obtain ⟨idx, tm, htloc, rfl⟩ := (settleTask_eq_some cfg u u' i).mp hstep
        have hmem : (idx, tm) ∈ u.tasks := mem_of_lookup htloc
        obtain ⟨hhs, hscb, hfcb, hout⟩ := ihtasks (idx, tm) hmem
        have hlen : i < u.tasks.length := (List.getElem?_eq_some.mp htloc).1
        have herase : (u.tasks.eraseIdx i).length + 1 = u.tasks.length := by
          rw [List.length_eraseIdx_of_lt hlen]
          omega
        have htasks' : ∀ p ∈ u.tasks.eraseIdx i, plainTask cfg p.2 :=
          fun p hp2 => ihtasks p ((List.eraseIdx_sublist _ i).mem hp2)
        cases hres : createTaskOutcome cfg tm with
        | value v =>
          rw [settleStep_value cfg u i idx tm v hres]
          refine ⟨?_, ?_, ?_, htasks'⟩
          · show (tm.finishCbStops || (u.stopped || tm.handlerStops)) = false
            rw [hfcb, ihstop, hhs]
            rfl
          · show (if tm.finishCbStops then some ThrownError.stopError else u.fatal) = none
            rw [hfcb]
            exact ihfat
          · show (if cfg.shouldResultsCorrespond then _
                  else u.results ++ [Cell.value v]).length + u.errors.length
                + (u.tasks.eraseIdx i).length + u.pending.length = cfg.items.length
            rw [if_neg (by rw [hC]; exact Bool.false_ne_true), List.length_append]
            simp only [List.length_singleton]
            omega
        | throws e =>
          rw [hres] at hout
          cases e with
          | stopError => exact absurd hout (by simp [plainTask])
          | validationError m => exact absurd hout (by simp [plainTask])
          | other v =>
            have hvnull : v ≠ JsValue.nullV := hout
            obtain ⟨pe, hpe⟩ := createFrom_ok_of_ne_null v tm.item hvnull
            rw [settleStep_recorded cfg u i idx tm v pe hres hEH hpe]
            refine ⟨?_, ?_, ?_, htasks'⟩
            · show (tm.finishCbStops || (u.stopped || tm.handlerStops)) = false
              rw [hfcb, ihstop, hhs]
              rfl
            · show (if tm.finishCbStops then some ThrownError.stopError else u.fatal) = none
              rw [hfcb]
              exact ihfat
            · show (if cfg.shouldResultsCorrespond then _ else u.results).length
                  + (u.errors ++ [pe]).length
                  + (u.tasks.eraseIdx i).length + u.pending.length = cfg.items.length
              rw [if_neg (by rw [hC]; exact Bool.false_ne_true), List.length_append]
              simp only [List.length_singleton]
              omega
  obtain ⟨hstop, -, hsum, -⟩ := key s hs
  obtain ⟨hloop, hfat, hproc⟩ := ht
  have hpend : s.pending = [] := by
    rcases hloop with hpend | hcontra
    · exact hpend
    · rw [hstop] at hcontra
      exact absurd hcontra (by simp)
  have hcount := (reachable_inv hs).settledCount hfat
  have hzero : s.tasks.length = 0 := by omega
  rw [hpend, hzero] at hsum
  simpa using hsum


/-- A task behaviour whose handler rejects with an ordinary `Error`. -/
def plainErrorTask (item : Nat) (msg : String) : TaskModel Nat Nat :=
  { item := item, handler := .throws (.other (.errV msg)), handlerStops := false,
    beatsTimer := true, ehThrows := none, ehStops := false, startCbStops := false,
    finishCbStops := false }

/-- Configuration used to witness C4: two items, one fulfilling and one
rejecting, default mode, no error handler. -/
def cfgW4 : Config Nat Nat :=
  { concurrency := 2, shouldResultsCorrespond := false, taskTimeout := none,
    hasErrorHandler := false, sourceIsArray := true,
    items := [plainValueTask 1 1, plainErrorTask 2 "boom"] }

/-- States of the concrete `cfgW4` run. -/
def stW4a : PoolState Nat Nat :=
  launchState cfgW4 (initState cfgW4) (plainValueTask 1 1) [plainErrorTask 2 "boom"]

/-- Second launch of the `cfgW4` run. -/
def stW4b : PoolState Nat Nat := launchState cfgW4 stW4a (plainErrorTask 2 "boom") []

/-- First settlement of the `cfgW4` run. -/
def stW4c : PoolState Nat Nat := settleStep cfgW4 stW4b 0 0 (plainValueTask 1 1)

/-- Final state of the `cfgW4` run. -/
def stW4d : PoolState Nat Nat := settleStep cfgW4 stW4c 0 1 (plainErrorTask 2 "boom")

/-- The final state of the `cfgW4` run is reachable. -/
theorem stW4d_reachable : Reachable cfgW4 stW4d :=
  Reachable.next stW4c stW4d (Choice.settle 0)
    (Reachable.next stW4b stW4c (Choice.settle 0)
      (Reachable.next stW4a stW4b Choice.pull
        (Reachable.next (initState cfgW4) stW4a Choice.pull Reachable.init rfl) rfl)
      rfl)
    rfl

/-- Witness for C4: in the concrete two-item run one item lands in `results`,
the other in `errors`, and the lengths add up to the source length. -/
theorem claim4_witness :
    stW4d.results.length + stW4d.errors.length = cfgW4.items.length :=
  claim4_default_partition cfgW4 rfl rfl
    (by
      intro tm hmem
      rcases List.mem_cons.mp hmem with rfl | hmem2
      · exact ⟨rfl, rfl, rfl, trivial⟩
      · rcases List.mem_cons.mp hmem2 with rfl | hmem3
        · refine ⟨rfl, rfl, rfl, ?_⟩
          show JsValue.errV "boom" ≠ JsValue.nullV
          decide
        · cases hmem3)
    stW4d_reachable ⟨Or.inl rfl, rfl, by decide⟩


/-- C6 (amended): the internal stop error raised by `stop()` from a handler
or from a custom error handler is always swallowed: settling a task whose
settlement is the stop error records nothing in `errors` and keeps the run
resolvable, and — provided no `onTaskStarted`/`onTaskFinished` callback
throws, no `ValidationError` is thrown, the error handler throws at most the
stop error and no handler rejects with `null` — no reachable state carries a
fatal rejection, so `run()` resolves normally with the accumulated results
and errors. -/
theorem claim6_amended {T R : Type} (cfg : Config T R)
    (hcb : ∀ tm ∈ cfg.items, tm.startCbStops = false ∧ tm.finishCbStops = false)
    (hout : ∀ tm ∈ cfg.items,
      (match createTaskOutcome cfg tm with
       | .throws (.validationError _) => False
       | .throws (.other v) => v ≠ JsValue.nullV
       | _ => True))
    (heh : ∀ tm ∈ cfg.items,
      tm.ehThrows = none ∨ tm.ehThrows = some ThrownError.stopError) :
    (∀ (s s' : PoolState T R) (i idx : Nat) (tm : TaskModel T R),
       s.tasks[i]? = some (idx, tm) →
       createTaskOutcome cfg tm = .throws ThrownError.stopError →
       tm.finishCbStops = false →
       settleTask cfg s i = some s' →
       s'.errors = s.errors ∧ s'.fatal = s.fatal) ∧
    (∀ s : PoolState T R, Reachable cfg s → s.fatal = none) := by
  constructor
  · intro s s' i idx tm ht hres hfcb h
    obtain ⟨idx2, tm2, ht2, rfl⟩ := (settleTask_eq_some cfg s s' i).mp h
    rw [ht] at ht2
    obtain ⟨h1, h2⟩ := Prod.mk.injEq .. ▸ Option.some.inj ht2
    subst h1
    subst h2
    rw [settleStep_stopError cfg s i idx tm hres]
    refine ⟨rfl, ?_⟩
    show (if tm.finishCbStops then some ThrownError.stopError else s.fatal) = s.fatal
    rw [if_neg (by rw [hfcb]; exact Bool.false_ne_true)]
  · intro s hs
    induction hs with
    | init => rfl
    | next u u' c hr hstep ih =>
      cases c with
      | pull =>
        obtain ⟨tm, rest, hp, -, -, rfl⟩ := (pullNext_eq_some cfg u u').mp hstep
        have htm : tm ∈ cfg.items := by
          have : tm ∈ u.pending := by rw [hp]; exact List.mem_cons_self tm rest
          rw [(reachable_inv hr).pendingSuffix] at this
          exact List.mem_of_mem_drop this
        rw [launchState_eq]
        show (if tm.startCbStops then some ThrownError.stopError else u.fatal) = none
        rw [if_neg (by rw [(hcb tm htm).1]; exact Bool.false_ne_true)]
        exact ih
      | settle i =>
        obtain ⟨idx, tm, htloc, rfl⟩ := (settleTask_eq_some cfg u u' i).mp hstep
        have hmem : (idx, tm) ∈ u.tasks := mem_of_lookup htloc
        have htm : tm ∈ cfg.items :=
          mem_of_lookup ((reachable_inv hr).taskItem (idx, tm) hmem)
        have hfcb : tm.finishCbStops = false := (hcb tm htm).2
        have hfcbne : ¬ (tm.finishCbStops = true) := by
          rw [hfcb]; exact Bool.false_ne_true
        have houtm := hout tm htm
        cases hres : createTaskOutcome cfg tm with
        | value v =>
          rw [settleStep_value cfg u i idx tm v hres]
          show (if tm.finishCbStops then some ThrownError.stopError else u.fatal) = none
          rw [if_neg hfcbne]
          exact ih
        | throws e =>
          rw [hres] at houtm
          cases e with
          | stopError =>
            rw [settleStep_stopError cfg u i idx tm hres]
            show (if tm.finishCbStops then some ThrownError.stopError else u.fatal) = none
            rw [if_neg hfcbne]
            exact ih
          | validationError m => exact absurd houtm (by simp)
          | other v =>
            cases hEH : cfg.hasErrorHandler with
            | true =>
              rw [settleStep_ehOk cfg u i idx tm v hres hEH (heh tm htm)]
              show (if tm.finishCbStops then some ThrownError.stopError else u.fatal) = none
              rw [if_neg hfcbne]
              exact ih
            | false =>
              obtain ⟨pe, hpe⟩ := createFrom_ok_of_ne_null v tm.item houtm
              rw [settleStep_recorded cfg u i idx tm v pe hres hEH hpe]
              show (if tm.finishCbStops then some ThrownError.stopError else u.fatal) = none
              rw [if_neg hfcbne]
              exact ih

/-- Configuration refuting C6 as stated: a single fulfilled item whose
`onTaskFinished` callback calls `pool.stop()`. -/
def cfgX6 : Config Nat Nat :=
  { concurrency := 2, shouldResultsCorrespond := false, taskTimeout := none,
    hasErrorHandler := false, sourceIsArray := true,
    items := [{ item := 1, handler := .value 1, handlerStops := false,
                beatsTimer := true, ehThrows := none, ehStops := false,
                startCbStops := false, finishCbStops := true }] }

/-- Counterexample to C6 as stated: when an `onTaskFinished` callback calls
`stop()`, the `StopThePromisePoolError` it throws rejects the task promise
from the chain's `finally`, nothing catches it, and `run()` rejects with the
internal stop error instead of resolving — the stop signal does propagate to
the caller when raised from a progress callback. -/
theorem claim6_counterexample :
    (runTrace cfgX6 [Choice.pull, Choice.settle 0]).map PoolState.fatal
      = some (some ThrownError.stopError) := by
  rfl

/-- Configuration used to witness the amended C6: one item whose handler
calls `stop()` (so its settlement is the internal stop error). -/
def cfgW6 : Config Nat Nat :=
  { concurrency := 2, shouldResultsCorrespond := false, taskTimeout := none,
    hasErrorHandler := false, sourceIsArray := true,
    items := [{ item := 5, handler := .throws ThrownError.stopError,
                handlerStops := true, beatsTimer := true, ehThrows := none,
                ehStops := false, startCbStops := false, finishCbStops := false }] }

/-- The launch of the single `cfgW6` item. -/
def stW6a : PoolState Nat Nat :=
  launchState cfgW6 (initState cfgW6)
    { item := 5, handler := .throws ThrownError.stopError, handlerStops := true,
      beatsTimer := true, ehThrows := none, ehStops := false,
      startCbStops := false, finishCbStops := false } []

/-- Witness for the amended C6: settling the concrete stop-unwound task
leaves `errors` and `fatal` unchanged, and the initial state carries no
fatal rejection. -/
theorem claim6_witness :
    ((settleStep cfgW6 stW6a 0 0
        { item := 5, handler := .throws ThrownError.stopError, handlerStops := true,
          beatsTimer := true, ehThrows := none, ehStops := false,
          startCbStops := false, finishCbStops := false }).errors = stW6a.errors ∧
      (settleStep cfgW6 stW6a 0 0
        { item := 5, handler := .throws ThrownError.stopError, handlerStops := true,
          beatsTimer := true, ehThrows := none, ehStops := false,
          startCbStops := false, finishCbStops := false }).fatal = stW6a.fatal) ∧
    (initState cfgW6).fatal = none := by
  have h := claim6_amended cfgW6 (by decide)
    (by
      intro tm hmem
      rcases List.mem_cons.mp hmem with rfl | hmem2
      · trivial
      · cases hmem2)
    (by decide)
  exact ⟨h.1 stW6a _ 0 0 _ rfl rfl rfl rfl, h.2 (initState cfgW6) Reachable.init⟩


/-- C5: with a task timeout configured, (a) after any task chain runs, its
`setTimeout` timer has been cleared by the `finally(canceller)` — in both
race outcomes — so no timer is left pending when `run()` returns; (b) a task
whose handler does not settle within the timeout settles as a rejection with
the `PromisePoolError` whose message names the timeout; and (c) in default
mode without a custom error handler, settling such a task records it as
failed: `saveErrorFor` appends a wrapped error carrying the
timeout-identifying message and the offending item, and the task is removed
from the active set. -/
theorem claim5_timeout {T R : Type} (cfg : Config T R) (t : Nat)
    (htt : cfg.taskTimeout = some t) :
    (∀ tm : TaskModel T R, (createTaskForModel cfg tm).2 = TimerState.cleared) ∧
    (∀ tm : TaskModel T R, tm.beatsTimer = false →
      createTaskOutcome cfg tm
        = .throws (.other (.errV (timeoutMessage t)))) ∧
    (∀ (s : PoolState T R) (i idx : Nat) (tm : TaskModel T R)
       (s' : PoolState T R),
       cfg.hasErrorHandler = false →
       cfg.shouldResultsCorrespond = false →
       tm.beatsTimer = false →
       tm.finishCbStops = false →
       s.tasks[i]? = some (idx, tm) →
       settleTask cfg s i = some s' →
       s'.errors = s.errors ++
         [{ raw := JsValue.errV (timeoutMessage t), item := tm.item,
            message := JsValue.strV (timeoutMessage t) }] ∧
       s'.tasks = s.tasks.eraseIdx i) := by
  have houtcome : ∀ tm : TaskModel T R, tm.beatsTimer = false →
      createTaskOutcome cfg tm
        = .throws (.other (.errV (timeoutMessage t))) := by
    intro tm hb
    unfold createTaskOutcome createTaskForModel
    rw [htt]
    simp [jsFinallyCleanup, hb]
  refine ⟨?_, houtcome, ?_⟩
  · intro tm
    unfold createTaskForModel
    rw [htt]
    rfl
  · intro s i idx tm s' hEH hC hb hfcb ht h
    obtain ⟨idx2, tm2, ht2, rfl⟩ := (settleTask_eq_some cfg s s' i).mp h
    rw [ht] at ht2
    obtain ⟨h1, h2⟩ := Prod.mk.injEq .. ▸ Option.some.inj ht2
    subst h1
    subst h2
    have hpe : PromisePoolError.createFrom (JsValue.errV (timeoutMessage t)) tm.item
        = .ok { raw := JsValue.errV (timeoutMessage t), item := tm.item,
                message := JsValue.strV (timeoutMessage t) } := rfl
    rw [settleStep_recorded cfg s i idx tm (JsValue.errV (timeoutMessage t)) _
      (houtcome tm hb) hEH hpe]
    exact ⟨rfl, rfl⟩

/-- Configuration used to witness C5: timeout 10ms, one item that does not
settle in time. -/
def cfgW5 : Config Nat Nat :=
  { concurrency := 1, shouldResultsCorrespond := false, taskTimeout := some 10,
    hasErrorHandler := false, sourceIsArray := true,
    items := [{ item := 4, handler := .value 4, handlerStops := false,
                beatsTimer := false, ehThrows := none, ehStops := false,
                startCbStops := false, finishCbStops := false }] }

/-- The timed-out task of `cfgW5`. -/
def tmW5 : TaskModel Nat Nat :=
  { item := 4, handler := .value 4, handlerStops := false, beatsTimer := false,
    ehThrows := none, ehStops := false, startCbStops := false,
    finishCbStops := false }

/-- The launch of the single `cfgW5` item. -/
def stW5a : PoolState Nat Nat := launchState cfgW5 (initState cfgW5) tmW5 []

/-- Witness for C5 on the concrete timed-out run: the timer ends cleared, the
race rejects with the timeout error, and settling records the wrapped
timeout error for the item while removing the task. -/
theorem claim5_witness :
    (createTaskForModel cfgW5 tmW5).2 = TimerState.cleared ∧
    createTaskOutcome cfgW5 tmW5
      = .throws (.other (.errV (timeoutMessage 10))) ∧
    ((settleStep cfgW5 stW5a 0 0 tmW5).errors = stW5a.errors ++
        [{ raw := JsValue.errV (timeoutMessage 10), item := tmW5.item,
           message := JsValue.strV (timeoutMessage 10) }] ∧
      (settleStep cfgW5 stW5a 0 0 tmW5).tasks = stW5a.tasks.eraseIdx 0) := by
  have h := claim5_timeout cfgW5 10 rfl
  exact ⟨h.1 tmW5, h.2.1 tmW5 rfl,
    h.2.2 stW5a 0 0 tmW5 _ rfl rfl rfl rfl rfl rfl⟩


/-! ### Validation of run inputs (`useConcurrency`, `validateInputs`) -/

/-- The task-timeout input as supplied by the user: absent (`undefined` or
`null`), an ordinary number, `NaN` (which has `typeof` number but fails
`timeout >= 0`), or a value of another type. -/
inductive TimeoutInput where
  | undef
  | num (n : Int)
  | nan
  | notNumber
  deriving Repr, DecidableEq

/-- Shape of the `items` source as probed by `areItemsValid`:
`Array.isArray`, `Symbol.iterator`, `Symbol.asyncIterator`, or none of the
three. -/
inductive SourceShape where
  | array
  | syncIterable
  | asyncIterable
  | invalid
  deriving Repr, DecidableEq

/-- An entry of a callback list, classified by the two facts the validator
reads: truthiness and callability. -/
inductive CbEntry where
  | callable
  | truthyNonCallable
  | falsyNonCallable
  deriving Repr, DecidableEq

/-- The raw inputs reaching `PromisePool.process`, as far as validation reads
them. -/
structure RunInputs where
  handlerIsFunction : Bool
  concurrencyIsNumber : Bool
  concurrencyValue : Int
  timeout : TimeoutInput
  source : SourceShape
  errorHandler : Option CbEntry
  onTaskStartedList : List CbEntry
  onTaskFinishedList : List CbEntry
  deriving Repr, DecidableEq

/-- `isValidConcurrency`: a number that is 1 or up. -/
def isValidConcurrency (inp : RunInputs) : Bool :=
  inp.concurrencyIsNumber && decide (1 ≤ inp.concurrencyValue)

/-- `useConcurrency`: throws a `ValidationError` on an invalid concurrency.
The builder chain assembled by `PromisePool.process` calls it before
`start`. -/
def useConcurrencyCheck (inp : RunInputs) : Except String Unit :=
  if isValidConcurrency inp then .ok ()
  else .error "concurrency must be a number, 1 or up"

/-- `areItemsValid`. -/
def areItemsValid (inp : RunInputs) : Bool :=
  match inp.source with
  | .array => true
  | .syncIterable => true
  | .asyncIterable => true
  | .invalid => false

/-- The timeout guard of `validateInputs`:
`timeout == null || (typeof timeout === 'number' && timeout >= 0)`. -/
def isValidTimeout : TimeoutInput → Bool
  | .undef => true
  | .num n => decide (0 ≤ n)
  | .nan => false
  | .notNumber => false

/-- The guard `if (handler && typeof handler !== 'function') throw ...` used
for the error handler and for each entry of the two callback lists: only
truthy non-callable entries are rejected — falsy non-callable entries pass
validation (and would crash only later, when invoked). -/
def failsCbGuard : CbEntry → Bool
  | .callable => false
  | .truthyNonCallable => true
  | .falsyNonCallable => false

/-- `validateInputs`, with its guards in source order: handler, timeout,
items shape, error handler, `onTaskStarted` entries, `onTaskFinished`
entries. -/
def validateInputs (inp : RunInputs) : Except String Unit :=
  if !inp.handlerIsFunction then
    .error "The first parameter for the .process(fn) method must be a function"
  else if !isValidTimeout inp.timeout then
    .error "timeout must be undefined or a number, 0 or up"
  else if !areItemsValid inp then
    .error "items must be an array, an iterable or an async iterable"
  else if (inp.errorHandler.map failsCbGuard).getD false then
    .error "The error handler must be a function"
  else if inp.onTaskStartedList.any failsCbGuard then
    .error "The onTaskStarted handler must be a function"
  else if inp.onTaskFinishedList.any failsCbGuard then
    .error "The onTaskFinished handler must be a function"
  else .ok ()

/-- Validation as sequenced by a `run()` call through the builder:
`useConcurrency` runs while the chain is assembled, then `start` runs
`validateInputs`; a thrown `ValidationError` rejects `run()` before the loop
pulls anything. -/
def startValidation (inp : RunInputs) : Except String Unit :=
  match useConcurrencyCheck inp with
  | .error m => .error m
  | .ok _ => validateInputs inp

/-- Number of items pulled (and tasks launched) by a run with the given
inputs: zero when validation rejects, otherwise whatever the scheduler trace
launches. -/
def launchesAfterStart {T R : Type} (inp : RunInputs) (cfg : Config T R)
    (cs : List Choice) : Nat :=
  match startValidation inp with
  | .error _ => 0
  | .ok _ =>
    match runTrace cfg cs with
    | none => 0
    | some s => s.nextIndex

/-- The timeout conditions enumerated by C7: negative or non-numeric. -/
def timeoutClaimBad : TimeoutInput → Bool
  | .num n => decide (n < 0)
  | .notNumber => true
  | _ => false

/-- The invalid-input condition of C7, read literally: non-callable handler,
concurrency below 1, negative or non-numeric timeout, a non-callable entry
in a callback list, or an inadmissible source. -/
def claimedInvalid (inp : RunInputs) : Bool :=
  !inp.handlerIsFunction ||
  (inp.concurrencyIsNumber && decide (inp.concurrencyValue < 1)) ||
  timeoutClaimBad inp.timeout ||
  (inp.onTaskStartedList ++ inp.onTaskFinishedList).any
    (fun e => decide (e ≠ CbEntry.callable)) ||
  decide (inp.source = SourceShape.invalid)

/-- The amended invalid-input condition: callback entries only trigger
validation when truthy. The concurrency clause is the negation of the source
guard `isValidConcurrency` itself — any concurrency that is not a number 1 or
up — which subsumes every numeric concurrency limit below 1. -/
def amendedInvalid (inp : RunInputs) : Bool :=
  !inp.handlerIsFunction ||
  !isValidConcurrency inp ||
  timeoutClaimBad inp.timeout ||
  (inp.onTaskStartedList ++ inp.onTaskFinishedList).any
    (fun e => decide (e = CbEntry.truthyNonCallable)) ||
  decide (inp.source = SourceShape.invalid)

/-- A passing validation pins down every guard. -/
theorem validateInputs_ok_iff (inp : RunInputs) (u : Unit) :
    validateInputs inp = .ok u ↔
      inp.handlerIsFunction = true ∧ isValidTimeout inp.timeout = true ∧
      areItemsValid inp = true ∧
      (inp.errorHandler.map failsCbGuard).getD false = false ∧
      inp.onTaskStartedList.any failsCbGuard = false ∧
      inp.onTaskFinishedList.any failsCbGuard = false := by
  unfold validateInputs
  split_ifs with h1 h2 h3 h4 h5 h6 <;> simp_all

/-- C7 (amended): for every configuration invalid in one of the enumerated
ways — handler not callable, concurrency limit below 1 (the hypothesis in
fact covers any concurrency failing the guard, i.e. not a number 1 or up),
negative or non-numeric timeout, a truthy non-callable entry in a callback
list, or a source that is none of the three admissible shapes — `run()`
rejects with a `ValidationError` before any item is pulled, so no handler
invocation occurs. (Falsy non-callable callback entries slip through
validation; see the counterexample.) -/
theorem claim7_amended (inp : RunInputs) (h : amendedInvalid inp = true) :
    (∃ m, startValidation inp = .error m) ∧
    ∀ (cfg : Config Nat Nat) (cs : List Choice),
      launchesAfterStart inp cfg cs = 0 := by
  have hm : ∃ m, startValidation inp = .error m := by
    cases hsv : startValidation inp with
    | error m => exact ⟨m, rfl⟩
    | ok u =>
      exfalso
      unfold startValidation at hsv
      cases hu : useConcurrencyCheck inp with
      | error m => rw [hu] at hsv; cases hsv
      | ok u2 =>
        rw [hu] at hsv
        unfold useConcurrencyCheck at hu
        have hvc : isValidConcurrency inp = true := by
          by_contra hcontra
          rw [if_neg hcontra] at hu
          cases hu
        obtain ⟨hh, htv, hiv, -, hl1, hl2⟩ := (validateInputs_ok_iff inp u).mp hsv
        simp only [amendedInvalid, Bool.or_eq_true, Bool.and_eq_true,
          Bool.not_eq_true', decide_eq_true_eq, List.any_eq_true,
          List.mem_append] at h
        rcases h with ((((h | h) | h) | h) | h)
        · rw [hh] at h; cases h
        · rw [hvc] at h; cases h
        · cases htime : inp.timeout with
          | undef => rw [htime] at h; cases h
          | num n =>
            rw [htime] at h htv
            have hneg := of_decide_eq_true h
            have hpos := of_decide_eq_true htv
            omega
          | nan => rw [htime] at htv; cases htv
          | notNumber => rw [htime] at htv; cases htv
        · obtain ⟨e, hemem, he⟩ := h
          subst he
          rcases hemem with hemem | hemem
          · exact List.any_eq_false.mp hl1 _ hemem rfl
          · exact List.any_eq_false.mp hl2 _ hemem rfl
        · unfold areItemsValid at hiv
          rw [h] at hiv
          simp at hiv
  refine ⟨hm, ?_⟩
  obtain ⟨m, hme⟩ := hm
  intro cfg cs
  unfold launchesAfterStart
  rw [hme]

/-- Inputs refuting C7 as stated: everything admissible except a `null`
(falsy, non-callable) entry in the `onTaskStarted` callback list. -/
def inpX7 : RunInputs :=
  { handlerIsFunction := true, concurrencyIsNumber := true, concurrencyValue := 10,
    timeout := .undef, source := .array, errorHandler := none,
    onTaskStartedList := [CbEntry.falsyNonCallable], onTaskFinishedList := [] }

/-- Counterexample to C7 as stated: a callback list holding a falsy
non-callable entry (such as `null`) is one of the claim's invalid inputs, yet
the guard `if (handler && typeof handler !== 'function')` skips falsy
entries, validation passes, and a run proceeds to pull and launch an item —
`run()` does not reject before processing. -/
theorem claim7_counterexample :
    claimedInvalid inpX7 = true ∧ startValidation inpX7 = .ok () ∧
      launchesAfterStart inpX7
        { concurrency := 1, shouldResultsCorrespond := false, taskTimeout := none,
          hasErrorHandler := false, sourceIsArray := true,
          items := [plainValueTask 1 1] } [Choice.pull] = 1 := by
  refine ⟨by decide, rfl, ?_⟩
  rfl

/-- Inputs used to witness the amended C7: a concurrency of 0. -/
def inpW7 : RunInputs :=
  { handlerIsFunction := true, concurrencyIsNumber := true, concurrencyValue := 0,
    timeout := .undef, source := .array, errorHandler := none,
    onTaskStartedList := [], onTaskFinishedList := [] }

/-- Witness for the amended C7 at concurrency 0. -/
theorem claim7_witness :
    (∃ m, startValidation inpW7 = .error m) ∧
      launchesAfterStart inpW7 cfgW1 [Choice.pull] = 0 :=
  ⟨(claim7_amended inpW7 (by decide)).1,
   (claim7_amended inpW7 (by decide)).2 cfgW1 [Choice.pull]⟩


/-- Counterexample to C9 as stated: wrapping a `null` rejection value does
not succeed — `messageFrom` reaches the `typeof error === 'object'` branch
(because `typeof null` is `'object'`) and the property access `error.message`
throws a `TypeError`, so the `PromisePoolError` constructor itself throws. -/
theorem claim9_counterexample :
    PromisePoolError.createFrom JsValue.nullV (0 : Nat)
      = .error (.typeError "Cannot read properties of null") := rfl

/-- C9 (amended): wrapping any rejection value other than `null` succeeds;
the wrapper preserves the value in `raw` and the item in `item`, and its
`message` is: the value's `message` for an `Error` instance, the value's
`message` property — possibly `undefined` or any non-string value — for any
other value of `typeof` `'object'`, `toString()` for strings and numbers,
and the empty string otherwise. For `null` the constructor throws. -/
theorem claim9_amended {T : Type} (v : JsValue) (item : T)
    (h : v ≠ JsValue.nullV) :
    ∃ pe : PromisePoolError T,
      PromisePoolError.createFrom v item = .ok pe ∧
      pe.raw = v ∧ pe.item = item ∧
      pe.message = (match v with
        | .errV m => JsValue.strV m
        | .objV m => m
        | .objNoMsgV => JsValue.undefV
        | .strV s => JsValue.strV s
        | .numV n => JsValue.strV (toString n)
        | _ => JsValue.strV "") := by
  cases v with
  | nullV => exact absurd rfl h
  | undefV => exact ⟨_, rfl, rfl, rfl, rfl⟩
  | boolV b => exact ⟨_, rfl, rfl, rfl, rfl⟩
  | numV n => exact ⟨_, rfl, rfl, rfl, rfl⟩
  | strV s => exact ⟨_, rfl, rfl, rfl, rfl⟩
  | errV m => exact ⟨_, rfl, rfl, rfl, rfl⟩
  | objV m => exact ⟨_, rfl, rfl, rfl, rfl⟩
  | objNoMsgV => exact ⟨_, rfl, rfl, rfl, rfl⟩

/-- Witness for the amended C9 at an `Error` rejection value. -/
theorem claim9_witness :
    ∃ pe : PromisePoolError Nat,
      PromisePoolError.createFrom (JsValue.errV "boom") (3 : Nat) = .ok pe ∧
      pe.raw = JsValue.errV "boom" ∧ pe.item = 3 ∧
      pe.message = (match JsValue.errV "boom" with
        | .errV m => JsValue.strV m
        | .objV m => m
        | .objNoMsgV => JsValue.undefV
        | .strV s => JsValue.strV s
        | .numV n => JsValue.strV (toString n)
        | _ => JsValue.strV "") :=
  claim9_amended (JsValue.errV "boom") 3 (by decide)

/-! ### Progress accessors (`itemsCount`, `processedPercentage`) -/

/-- An IEEE-754 double as far as the progress arithmetic observes it. -/
inductive JsNumber where
  | nan
  | posInf
  | negInf
  | fin (q : Rat)
  deriving Repr, DecidableEq

/-- JavaScript division on the modelled doubles: `NaN` is absorbing, a
finite value divided by zero gives a signed infinity (or `NaN` for `0/0`),
and division by an infinity gives zero. -/
def jsDiv : JsNumber → JsNumber → JsNumber
  | .nan, _ => .nan
  | _, .nan => .nan
  | .fin x, .fin y =>
    if y = 0 then
      if x = 0 then .nan
      else if 0 < x then .posInf else .negInf
    else .fin (x / y)
  | .posInf, .fin y => if 0 ≤ y then .posInf else .negInf
  | .negInf, .fin y => if 0 ≤ y then .negInf else .posInf
  | .fin _, .posInf => .fin 0
  | .fin _, .negInf => .fin 0
  | _, _ => .nan

/-- JavaScript multiplication on the modelled doubles: `NaN` is absorbing
and an infinity times zero is `NaN`. -/
def jsMul : JsNumber → JsNumber → JsNumber
  | .nan, _ => .nan
  | _, .nan => .nan
  | .fin x, .fin y => .fin (x * y)
  | .posInf, .fin y => if y = 0 then .nan else if 0 < y then .posInf else .negInf
  | .fin x, .posInf => if x = 0 then .nan else if 0 < x then .posInf else .negInf
  | .negInf, .fin y => if y = 0 then .nan else if 0 < y then .negInf else .posInf
  | .fin x, .negInf => if x = 0 then .nan else if 0 < x then .negInf else .posInf
  | .posInf, .posInf => .posInf
  | .negInf, .negInf => .posInf
  | .posInf, .negInf => .negInf
  | .negInf, .posInf => .negInf

/-- Dividing by `NaN` gives `NaN`. -/
theorem jsDiv_nan (a : JsNumber) : jsDiv a JsNumber.nan = JsNumber.nan := by
  cases a <;> rfl

/-- `itemsCount`: `Array.isArray(items) ? items.length : NaN`. -/
def itemsCount {T R : Type} (cfg : Config T R) : JsNumber :=
  if cfg.sourceIsArray then JsNumber.fin (cfg.items.length : Rat) else JsNumber.nan

/-- `processedCount`: the length of `processedItems`. -/
def processedCount {T R : Type} (s : PoolState T R) : Nat :=
  s.processedItems.length

/-- `processedPercentage`:
`(this.processedCount() / this.itemsCount()) * 100`. -/
def processedPercentage {T R : Type} (cfg : Config T R) (s : PoolState T R) :
    JsNumber :=
  jsMul (jsDiv (JsNumber.fin (processedCount s : Rat)) (itemsCount cfg))
    (JsNumber.fin 100)

/-- C10: at every point of a run, `processedPercentage()` is
`(processedCount() / itemsCount()) * 100` with `itemsCount()` the array
length for an array source and `NaN` otherwise; consequently the percentage
is `NaN` for synchronous- and asynchronous-iterable (non-array) sources. -/
theorem claim10_processed_percentage {T R : Type} (cfg : Config T R)
    (s : PoolState T R) :
    itemsCount cfg
        = (if cfg.sourceIsArray then JsNumber.fin (cfg.items.length : Rat)
           else JsNumber.nan) ∧
    processedPercentage cfg s
        = jsMul (jsDiv (JsNumber.fin (processedCount s : Rat)) (itemsCount cfg))
            (JsNumber.fin 100) ∧
    (cfg.sourceIsArray = false → processedPercentage cfg s = JsNumber.nan) := by
  refine ⟨rfl, rfl, ?_⟩
  intro h
  unfold processedPercentage itemsCount
  rw [if_neg (by rw [h]; exact Bool.false_ne_true), jsDiv_nan]
  rfl

/-- Configuration used to witness C10: a synchronous-iterable source. -/
def cfgW10 : Config Nat Nat :=
  { concurrency := 10, shouldResultsCorrespond := false, taskTimeout := none,
    hasErrorHandler := false, sourceIsArray := false, items := [plainValueTask 1 1] }

/-- Witness for C10: the percentage of the non-array run is `NaN`. -/
theorem claim10_witness : processedPercentage cfgW10 (initState cfgW10) = JsNumber.nan :=
  (claim10_processed_percentage cfgW10 (initState cfgW10)).2.2 rfl

end PromisePoolModel
